import Mathlib

/-!
Verification of the trie rule engine in `src/backend/trie_engine.c`.

Strings are modelled as lists of byte values (`List Nat`); a C string is
the list of its bytes before the terminating NUL.  The trie root pointer
is modelled as `Option TrieNode` (`none` is the NULL root).  All
functions below are shallow embeddings of the corresponding C functions.
-/

namespace TrieEngine

/-- ASCII `isalpha` (C locale): uppercase 65..90 or lowercase 97..122. -/
def isalpha (c : Nat) : Bool :=
  decide ((65 ≤ c ∧ c ≤ 90) ∨ (97 ≤ c ∧ c ≤ 122))

/-- ASCII `tolower`: maps 65..90 to 97..122, everything else unchanged. -/
def tolower (c : Nat) : Nat :=
  if 65 ≤ c ∧ c ≤ 90 then c + 32 else c

/-- ASCII `toupper`: maps 97..122 to 65..90, everything else unchanged. -/
def toupper (c : Nat) : Nat :=
  if 97 ≤ c ∧ c ≤ 122 then c - 32 else c

/-- `normalize_string` from trie_engine.c: keep only alphabetic
characters and lowercase them, preserving order. -/
def normalize_string (s : List Nat) : List Nat :=
  (s.filter isalpha).map tolower

/-- A trie node: the `is_end_of_rule` flag and the 26 child slots
(`children[i] == NULL` is `none`). -/
inductive TrieNode : Type where
  | mk : Bool → (Fin 26 → Option TrieNode) → TrieNode

/-- The `is_end_of_rule` field. -/
def TrieNode.is_end_of_rule : TrieNode → Bool
  | .mk b _ => b

/-- The `children` array. -/
def TrieNode.children : TrieNode → Fin 26 → Option TrieNode
  | .mk _ c => c

/-- `create_node`: `calloc` produces an all-zero node (flag false, all
children NULL). -/
def create_node : TrieNode :=
  .mk false (fun _ => none)

/-- The global root pointer: `none` models `root == NULL`. -/
abbrev Trie : Type := Option TrieNode

/-- `init_trie`: allocate a fresh root only if the root is NULL. -/
def init_trie : Trie → Trie
  | none => some create_node
  | some r => some r

/-- `free_trie`: after teardown the root pointer is NULL. -/
def free_trie : Trie → Trie
  | _ => none

/-- `normalized[i] - 'a'` as a child index.  Normalized characters lie
in 97..122, where the `% 26` is the identity. -/
def letterIndex (c : Nat) : Fin 26 :=
  ⟨(c - 97) % 26, Nat.mod_lt _ (by decide)⟩

/-- The walking loop of `insert_rule` (lines 72-84): follow the indices,
allocating missing children, and set `is_end_of_rule` on the final node. -/
def insertWalk : TrieNode → List (Fin 26) → TrieNode
  | r, [] => TrieNode.mk true r.children
  | r, i :: ks =>
    TrieNode.mk r.is_end_of_rule
      (fun j => if j = i then some (insertWalk ((r.children i).getD create_node) ks)
                else r.children j)

/-- `insert_rule` (lines 46-86): auto-initialize a NULL root, mark the
root terminal on raw-empty input, skip when the normalized string is
empty, otherwise walk and mark. -/
def insert_rule (rule : List Nat) (t : Trie) : Trie :=
  let r := t.getD create_node
  if rule = [] then
    some (TrieNode.mk true r.children)
  else if normalize_string rule = [] then
    some r
  else
    some (insertWalk r ((normalize_string rule).map letterIndex))

/-- The walking loop of `search_rule` (lines 112-124): follow the
indices; a missing child gives false, otherwise return the final flag. -/
def searchWalk : TrieNode → List (Fin 26) → Bool
  | r, [] => r.is_end_of_rule
  | r, i :: ks =>
    match r.children i with
    | none => false
    | some c => searchWalk c ks

/-- `search_rule` (lines 89-125): NULL root gives 0, raw-empty input
reads the root flag, normalized-empty input gives 0, otherwise walk. -/
def search_rule (rule : List Nat) (t : Trie) : Bool :=
  match t with
  | none => false
  | some r =>
    if rule = [] then r.is_end_of_rule
    else if normalize_string rule = [] then false
    else searchWalk r ((normalize_string rule).map letterIndex)

/-- Fold `insert_rule` over a list of rules. -/
def insertAll (rules : List (List Nat)) (t : Trie) : Trie :=
  rules.foldl (fun a r => insert_rule r a) t

/-- The effective key an input contributes to the trie: `[]` for the
raw-empty string, nothing for a nonempty input with no letters, and the
index list of the normalized form otherwise. -/
def effKey (s : List Nat) : Option (List (Fin 26)) :=
  if s = [] then some []
  else if normalize_string s = [] then none
  else some ((normalize_string s).map letterIndex)

/-- State-threaded version of the search walk, mirroring that the loop
in `search_rule` only reads the trie. -/
def searchWalkST : TrieNode → List (Fin 26) → Trie → Bool × Trie
  | r, [], t => (r.is_end_of_rule, t)
  | r, i :: ks, t =>
    match r.children i with
    | none => (false, t)
    | some c => searchWalkST c ks t

/-- State-threaded version of `search_rule`: returns the result together
with the trie state the call leaves behind. -/
def search_rule_st (rule : List Nat) (t : Trie) : Bool × Trie :=
  match t with
  | none => (false, t)
  | some r =>
    if rule = [] then (r.is_end_of_rule, t)
    else if normalize_string rule = [] then (false, t)
    else searchWalkST r ((normalize_string rule).map letterIndex) t

@[simp] theorem is_end_of_rule_mk (b : Bool) (f : Fin 26 → Option TrieNode) :
    (TrieNode.mk b f).is_end_of_rule = b := rfl

@[simp] theorem children_mk (b : Bool) (f : Fin 26 → Option TrieNode) :
    (TrieNode.mk b f).children = f := rfl

theorem searchWalk_nil (r : TrieNode) : searchWalk r [] = r.is_end_of_rule := rfl

theorem searchWalk_cons (r : TrieNode) (i : Fin 26) (ks : List (Fin 26)) :
    searchWalk r (i :: ks) =
      match r.children i with
      | none => false
      | some c => searchWalk c ks := rfl

theorem insertWalk_nil (r : TrieNode) : insertWalk r [] = TrieNode.mk true r.children := rfl

theorem insertWalk_cons (r : TrieNode) (i : Fin 26) (ks : List (Fin 26)) :
    insertWalk r (i :: ks) =
      TrieNode.mk r.is_end_of_rule
        (fun j => if j = i then some (insertWalk ((r.children i).getD create_node) ks)
                  else r.children j) := rfl

/-- A freshly allocated node matches nothing. -/
theorem searchWalk_create_node (p : List (Fin 26)) : searchWalk create_node p = false := by
  cases p with
  | nil => rfl
  | cons i ks => rfl

/-- Walking an inserted path finds exactly the inserted key plus
whatever was already present. -/
theorem searchWalk_insertWalk (p : List (Fin 26)) : ∀ (q : List (Fin 26)) (r : TrieNode),
    searchWalk (insertWalk r q) p = (decide (p = q) || searchWalk r p) := by
  induction p with
  | nil =>
    intro q r
    cases q with
    | nil => simp [insertWalk_nil, searchWalk_nil]
    | cons i qs => simp [insertWalk_cons, searchWalk_nil]
  | cons j ps ih =>
    intro q r
    cases q with
    | nil =>
      rw [insertWalk_nil, searchWalk_cons, searchWalk_cons]
      simp only [children_mk, decide_eq_false (by simp : ¬ (j :: ps = ([] : List (Fin 26)))),
        Bool.false_or]
    | cons i qs =>
      rw [insertWalk_cons, searchWalk_cons, searchWalk_cons]
      simp only [children_mk]
      by_cases hji : j = i
      · subst hji
        simp only [eq_self_iff_true, ite_true]
        rw [ih]
        cases hr : r.children j with
        | none =>
          simp [hr, searchWalk_create_node, List.cons_eq_cons]
        | some c =>
          simp [hr, List.cons_eq_cons]
      · simp only [if_neg hji]
        have : (decide (j :: ps = i :: qs)) = false := by
          simp [List.cons_eq_cons, hji]
        rw [this, Bool.false_or]

/-- Inserting never clears the terminal flag of the node it starts at. -/
theorem insertWalk_is_end (r : TrieNode) (k : List (Fin 26)) :
    r.is_end_of_rule = true → (insertWalk r k).is_end_of_rule = true := by
  intro h
  cases k with
  | nil => simp [insertWalk_nil]
  | cons i ks => simp [insertWalk_cons, h]

/-- The insert walk is idempotent on the same key. -/
theorem insertWalk_idem (k : List (Fin 26)) : ∀ r : TrieNode,
    insertWalk (insertWalk r k) k = insertWalk r k := by
  induction k with
  | nil =>
    intro r
    rw [insertWalk_nil, insertWalk_nil, children_mk]
  | cons i ks ih =>
    intro r
    rw [insertWalk_cons, insertWalk_cons]
    simp only [children_mk, is_end_of_rule_mk, eq_self_iff_true, ite_true, Option.getD_some]
    rw [ih]
    congr 1
    funext j
    by_cases hj : j = i
    · simp [hj]
    · simp [hj]

/-- `insert_rule` on a non-NULL root, expressed through the effective key. -/
theorem insert_rule_effKey (s : List Nat) (r : TrieNode) :
    insert_rule s (some r) =
      some (match effKey s with
            | none => r
            | some k => insertWalk r k) := by
  by_cases hs : s = []
  · subst hs
    simp [insert_rule, effKey, insertWalk_nil]
  · by_cases hn : normalize_string s = []
    · simp [insert_rule, effKey, hs, hn]
    · simp [insert_rule, effKey, hs, hn]

/-- `search_rule` on a non-NULL root, expressed through the effective key. -/
theorem search_rule_effKey (s : List Nat) (r : TrieNode) :
    search_rule s (some r) =
      (match effKey s with
       | none => false
       | some k => searchWalk r k) := by
  by_cases hs : s = []
  · subst hs
    simp [search_rule, effKey, searchWalk_nil]
  · by_cases hn : normalize_string s = []
    · simp [search_rule, effKey, hs, hn]
    · simp [search_rule, effKey, hs, hn]

/-- Folding inserts over a non-NULL root keeps the root non-NULL and
amounts to inserting the effective keys in order. -/
theorem insertAll_some (rules : List (List Nat)) : ∀ r : TrieNode,
    insertAll rules (some r) = some ((rules.filterMap effKey).foldl insertWalk r) := by
  induction rules with
  | nil => intro r; rfl
  | cons s rs ih =>
    intro r
    show insertAll rs (insert_rule s (some r)) = _
    rw [insert_rule_effKey, List.filterMap_cons]
    cases hk : effKey s with
    | none => simpa [hk] using ih r
    | some k => simpa [hk] using ih (insertWalk r k)

/-- Search over a fold of insert walks: a key is found exactly when it
was inserted or was already present. -/
theorem searchWalk_foldl (ks : List (List (Fin 26))) : ∀ (r : TrieNode) (p : List (Fin 26)),
    searchWalk (ks.foldl insertWalk r) p = (decide (p ∈ ks) || searchWalk r p) := by
  induction ks with
  | nil => intro r p; simp
  | cons k ks ih =>
    intro r p
    rw [List.foldl_cons, ih, searchWalk_insertWalk]
    by_cases h1 : p = k <;> by_cases h2 : p ∈ ks <;> simp [h1, h2]

/-- Characterization of search on a trie built from scratch by a list of
inserts: a query with effective key `k` succeeds exactly when some
inserted rule had effective key `k`. -/
theorem search_insertAll_iff (rules : List (List Nat)) (p : List Nat) (k : List (Fin 26))
    (hk : effKey p = some k) :
    search_rule p (insertAll rules (some create_node)) = true ↔
      k ∈ rules.filterMap effKey := by
  rw [insertAll_some, search_rule_effKey, hk]
  show searchWalk _ k = true ↔ _
  rw [searchWalk_foldl, searchWalk_create_node]
  simp

theorem isalpha_toupper (c : Nat) : isalpha (toupper c) = isalpha c := by
  unfold isalpha toupper
  split_ifs with h
  · simp only [decide_eq_decide]
    omega
  · rfl

theorem tolower_toupper (c : Nat) : tolower (toupper c) = tolower c := by
  unfold tolower toupper
  split_ifs <;> omega

/-- Uppercasing the raw input does not change the normalized form. -/
theorem normalize_map_toupper (s : List Nat) :
    normalize_string (s.map toupper) = normalize_string s := by
  induction s with
  | nil => rfl
  | cons c cs ih =>
    unfold normalize_string at ih ⊢
    simp only [List.map_cons, List.filter_cons, isalpha_toupper]
    cases h : isalpha c
    · simpa [h] using ih
    · simpa [h, tolower_toupper] using ih

/-- Every character of a normalized string is a lowercase letter. -/
theorem normalize_mem_range (s : List Nat) :
    ∀ c ∈ normalize_string s, 97 ≤ c ∧ c ≤ 122 := by
  intro c hc
  unfold normalize_string at hc
  rw [List.mem_map] at hc
  obtain ⟨d, hd, rfl⟩ := hc
  rw [List.mem_filter] at hd
  have hda := hd.2
  unfold isalpha at hda
  rw [decide_eq_true_iff] at hda
  unfold tolower
  split_ifs with h <;> omega

theorem letterIndex_inj {c d : Nat} (hc : 97 ≤ c ∧ c ≤ 122) (hd : 97 ≤ d ∧ d ≤ 122)
    (h : letterIndex c = letterIndex d) : c = d := by
  unfold letterIndex at h
  rw [Fin.mk.injEq, Nat.mod_eq_of_lt (by omega), Nat.mod_eq_of_lt (by omega)] at h
  omega

/-- `letterIndex` is injective on normalized strings. -/
theorem map_letterIndex_inj : ∀ a b : List Nat,
    (∀ c ∈ a, 97 ≤ c ∧ c ≤ 122) → (∀ c ∈ b, 97 ≤ c ∧ c ≤ 122) →
    a.map letterIndex = b.map letterIndex → a = b := by
  intro a
  induction a with
  | nil =>
    intro b _ _ h
    cases b with
    | nil => rfl
    | cons d ds => simp at h
  | cons c cs ih =>
    intro b ha hb h
    cases b with
    | nil => simp at h
    | cons d ds =>
      simp only [List.map_cons, List.cons.injEq] at h
      have hc := ha c (by simp)
      have hd := hb d (by simp)
      have hcd := letterIndex_inj hc hd h.1
      subst hcd
      have := ih ds (fun x hx => ha x (by simp [hx])) (fun x hx => hb x (by simp [hx])) h.2
      rw [this]

/-- Shared helper: inserting a rule that is raw-empty or has a nonempty
normalized form makes the same query succeed. -/
theorem insert_then_search (s : List Nat) (t : Trie)
    (h : s = [] ∨ normalize_string s ≠ []) :
    search_rule s (insert_rule s t) = true := by
  rcases h with rfl | hn
  · cases t <;> simp [insert_rule, search_rule]
  · have hs : s ≠ [] := by
      intro he
      subst he
      exact hn rfl
    cases t with
    | none => simp [insert_rule, search_rule, hs, hn, searchWalk_insertWalk]
    | some r => simp [insert_rule, search_rule, hs, hn, searchWalk_insertWalk]

/-- Claim C1 fails as stated: for the input "1" (byte 49), which is
nonempty but has no letters, insert skips and search then returns false. -/
theorem C1_counterexample :
    search_rule [49] (insert_rule [49] none) = false := by decide

/-- Claim C1 (amended): for every string that is empty or contains at
least one ASCII letter, inserting it and then searching for it on the
same trie returns true. -/
theorem C1_insert_then_search_true (s : List Nat) (t : Trie)
    (h : s = [] ∨ normalize_string s ≠ []) :
    search_rule s (insert_rule s t) = true :=
  insert_then_search s t h

/-- Witness for C1 at the concrete input "hi" on the NULL trie. -/
theorem C1_witness :
    search_rule [104, 105] (insert_rule [104, 105] none) = true :=
  C1_insert_then_search_true [104, 105] none (Or.inr (by decide))

/-- Claim C2 fails as stated: on an initialized empty trie, inserting
"123!!!" (bytes 49 50 51 33 33 33) leaves a different state than
inserting "". -/
theorem C2_counterexample :
    insert_rule [49, 50, 51, 33, 33, 33] (some create_node) ≠
      insert_rule [] (some create_node) := by
  intro h
  exact absurd (congrArg (search_rule []) h) (by decide)

/-- Claim C2 (amended): on a nonempty input that normalizes to empty,
insert only ensures the trie is initialized (like `init_trie`) and does
not mark the root terminal, so it is not equivalent to inserting "". -/
theorem C2_norm_empty_insert_skips (s : List Nat) (t : Trie)
    (hs : s ≠ []) (hn : normalize_string s = []) :
    insert_rule s t = init_trie t := by
  cases t with
  | none => simp [insert_rule, init_trie, hs, hn]
  | some r => simp [insert_rule, init_trie, hs, hn]

/-- Witness for C2 at the concrete input "123!!!". -/
theorem C2_witness :
    insert_rule [49, 50, 51, 33, 33, 33] (some create_node) =
      init_trie (some create_node) :=
  C2_norm_empty_insert_skips [49, 50, 51, 33, 33, 33] (some create_node)
    (by decide) (by decide)

/-- Claim C3 fails as stated: with the root terminal flag set, searching
the nonempty letterless input "1" returns false, not the root flag. -/
theorem C3_counterexample :
    search_rule [49] (some (TrieNode.mk true (fun _ => none))) = false ∧
      (TrieNode.mk true (fun _ => none)).is_end_of_rule = true := by
  constructor
  · decide
  · rfl

/-- Claim C3 (amended): on an input that normalizes to empty, search
returns the root terminal flag only when the raw input is empty; a
nonempty letterless input returns false regardless of the root flag. -/
theorem C3_norm_empty_search (s : List Nat) (r : TrieNode)
    (hn : normalize_string s = []) :
    search_rule s (some r) = (if s = [] then r.is_end_of_rule else false) := by
  by_cases hs : s = [] <;> simp [search_rule, hs, hn]

/-- Witness for C3 at the concrete input "1" and a terminal root. -/
theorem C3_witness :
    search_rule [49] (some (TrieNode.mk true (fun _ => none))) =
      (if ([49] : List Nat) = [] then (TrieNode.mk true (fun _ => none)).is_end_of_rule
       else false) :=
  C3_norm_empty_search [49] (TrieNode.mk true (fun _ => none)) (by decide)

/-- Claim C4 fails as stated in its second part: "" and "!" (byte 33)
have the same normalized form, yet after inserting "" a search for "!"
returns false. -/
theorem C4_counterexample :
    normalize_string [] = normalize_string [33] ∧
      search_rule [33] (insert_rule [] (some create_node)) = false := by
  decide

/-- Claim C4 (amended): searching a string and its uppercased form agree
on every trie; and inserting a rule makes every string with the same
normalized form found, provided that form is nonempty or both strings
are raw-empty. -/
theorem C4_case_noise_insensitive :
    (∀ (s : List Nat) (t : Trie), search_rule s t = search_rule (s.map toupper) t) ∧
    (∀ (s u : List Nat) (t : Trie), normalize_string s = normalize_string u →
      (normalize_string s ≠ [] ∨ (s = [] ∧ u = [])) →
      search_rule u (insert_rule s t) = true) := by
  constructor
  · intro s t
    cases t with
    | none => rfl
    | some r =>
      by_cases hs : s = []
      · subst hs; rfl
      · have hs2 : s.map toupper ≠ [] := by simpa using hs
        simp [search_rule, hs, hs2, normalize_map_toupper]
  · intro s u t he hcase
    rcases hcase with hn | ⟨rfl, rfl⟩
    · have hs : s ≠ [] := by
        intro h
        subst h
        exact hn rfl
      have hnu : normalize_string u ≠ [] := he ▸ hn
      have hu : u ≠ [] := by
        intro h
        subst h
        exact hnu rfl
      cases t with
      | none => simp [insert_rule, search_rule, hs, hu, hn, hnu, he, searchWalk_insertWalk]
      | some r => simp [insert_rule, search_rule, hs, hu, hn, hnu, he, searchWalk_insertWalk]
    · cases t <;> simp [insert_rule, search_rule]

/-- Witness for C4: "a!" against its uppercasing, and insert "H!i" then
search "hI". -/
theorem C4_witness :
    search_rule [97, 33] (some create_node) =
      search_rule (([97, 33] : List Nat).map toupper) (some create_node) ∧
      search_rule [104, 73] (insert_rule [72, 33, 105] (some create_node)) = true :=
  ⟨C4_case_noise_insensitive.1 [97, 33] (some create_node),
   C4_case_noise_insensitive.2 [72, 33, 105] [104, 73] (some create_node)
     (by decide) (Or.inl (by decide))⟩

/-- Claim C5 (confirmed): search returns false, not an error, whenever
the root is NULL: before any init or insert, and after teardown. -/
theorem C5_search_null_root_false (s : List Nat) (t : Trie) :
    search_rule s none = false ∧ search_rule s (free_trie t) = false :=
  ⟨rfl, rfl⟩

/-- Claim C6 (confirmed): on a trie built from scratch by a list of
inserts, a query whose normalized form is a proper prefix of some
inserted rule's normalized form, and matches no inserted rule's
normalized form, returns false. -/
theorem C6_proper_prefixes_not_members (rules : List (List Nat)) (p : List Nat)
    (hp : normalize_string p ≠ [])
    (_hpre : ∃ s ∈ rules, ∃ q, q ≠ [] ∧
      normalize_string s = normalize_string p ++ q)
    (hnotins : ∀ s ∈ rules, normalize_string s ≠ normalize_string p) :
    search_rule p (insertAll rules (some create_node)) = false := by
  have hpne : p ≠ [] := by
    intro h
    subst h
    exact hp rfl
  have hk : effKey p = some ((normalize_string p).map letterIndex) := by
    simp [effKey, hpne, hp]
  cases hsr : search_rule p (insertAll rules (some create_node)) with
  | false => rfl
  | true =>
    exfalso
    rw [search_insertAll_iff rules p _ hk, List.mem_filterMap] at hsr
    obtain ⟨s, hs, hks⟩ := hsr
    unfold effKey at hks
    split_ifs at hks with h1 h2
    · rw [Option.some.injEq, eq_comm, List.map_eq_nil_iff] at hks
      exact hp hks
    · rw [Option.some.injEq] at hks
      have := map_letterIndex_inj _ _ (normalize_mem_range s) (normalize_mem_range p) hks
      exact hnotins s hs this

/-- Witness for C6: insert "hello", search "hell". -/
theorem C6_witness :
    search_rule [104, 101, 108, 108]
      (insertAll [[104, 101, 108, 108, 111]] (some create_node)) = false :=
  C6_proper_prefixes_not_members [[104, 101, 108, 108, 111]] [104, 101, 108, 108]
    (by decide)
    ⟨[104, 101, 108, 108, 111], by decide, [111], by decide, by decide⟩
    (by decide)

/-- Claim C7 (confirmed): inserting the same string twice in a row
leaves the trie in the same state as inserting it once. -/
theorem C7_insert_idempotent (s : List Nat) (t : Trie) :
    insert_rule s (insert_rule s t) = insert_rule s t := by
  have key : ∀ r : TrieNode,
      insert_rule s (insert_rule s (some r)) = insert_rule s (some r) := by
    intro r
    rw [insert_rule_effKey s r, insert_rule_effKey s]
    cases hk : effKey s with
    | none => simp [hk]
    | some k => simp [hk, insertWalk_idem]
  cases t with
  | none =>
    have h0 : insert_rule s none = insert_rule s (some create_node) := rfl
    rw [h0]
    exact key create_node
  | some r => exact key r

/-- Helper: the state-threaded search walk returns the pure result and
the unchanged trie state. -/
theorem searchWalkST_eq (k : List (Fin 26)) : ∀ (r : TrieNode) (t : Trie),
    searchWalkST r k t = (searchWalk r k, t) := by
  induction k with
  | nil => intro r t; rfl
  | cons i ks ih =>
    intro r t
    show (match r.children i with
          | none => (false, t)
          | some c => searchWalkST c ks t) = _
    rw [searchWalk_cons]
    cases h : r.children i with
    | none => rfl
    | some c => simp [ih]

/-- Claim C8 (confirmed): search never mutates the trie; the
state-threaded embedding returns the input state unchanged together
with the pure search result. -/
theorem C8_search_no_mutation (s : List Nat) (t : Trie) :
    (search_rule_st s t).2 = t ∧ (search_rule_st s t).1 = search_rule s t := by
  cases t with
  | none => exact ⟨rfl, rfl⟩
  | some r =>
    by_cases hs : s = []
    · subst hs
      exact ⟨rfl, rfl⟩
    · by_cases hn : normalize_string s = []
      · simp [search_rule_st, search_rule, hs, hn]
      · simp [search_rule_st, search_rule, hs, hn, searchWalkST_eq]

/-- Claim C9 (confirmed): membership is monotone under insertion; a
successful search stays successful after any further insert. -/
theorem C9_search_monotone (s u : List Nat) (t : Trie)
    (h : search_rule s t = true) :
    search_rule s (insert_rule u t) = true := by
  cases t with
  | none => exact absurd h (by simp [search_rule])
  | some r =>
    rw [search_rule_effKey] at h
    rw [insert_rule_effKey, search_rule_effKey]
    cases hks : effKey s with
    | none =>
      rw [hks] at h
      exact absurd h (by simp)
    | some k =>
      rw [hks] at h
      cases hku : effKey u with
      | none => simpa using h
      | some ku =>
        show searchWalk (insertWalk r ku) k = true
        rw [searchWalk_insertWalk]
        have hk : searchWalk r k = true := h
        simp [hk]

/-- Witness for C9: after inserting "a" then "b", "a" is still found. -/
theorem C9_witness :
    search_rule [97] (insert_rule [98] (insert_rule [97] (some create_node))) = true :=
  C9_search_monotone [97] [98] (insert_rule [97] (some create_node)) (by decide)

/-- Claim C10 (confirmed): insert on a torn-down trie auto-reinitializes
it (the root becomes non-NULL) and performs the insertion, so for any
input with a nonempty normalized form, teardown then insert then search
returns true. -/
theorem C10_insert_after_teardown (s : List Nat) (t : Trie) :
    (insert_rule s (free_trie t)).isSome = true ∧
      (normalize_string s ≠ [] →
        search_rule s (insert_rule s (free_trie t)) = true) := by
  constructor
  · show (insert_rule s none).isSome = true
    by_cases hs : s = [] <;> by_cases hn : normalize_string s = [] <;>
      simp [insert_rule, hs, hn]
  · intro hn
    exact insert_then_search s (free_trie t) (Or.inr hn)

/-- Witness for C10: teardown a one-rule trie, insert "ab", find "ab". -/
theorem C10_witness :
    search_rule [97, 98]
      (insert_rule [97, 98] (free_trie (insert_rule [99] (some create_node)))) = true :=
  (C10_insert_after_teardown [97, 98] (insert_rule [99] (some create_node))).2 (by decide)

end TrieEngine
